import Mathlib

/-!
Shallow embedding of the hpproj core (hp_helper.py, cutsky.py) used to check
the natural-language specification against the code.

Modelling conventions:
- FITS headers are modelled by `HpHeader` with the three fields the core
  consumes (`NSIDE`, `ORDERING`, `COORDSYS`); an absent field is `none`.
- Python `ValueError` / `FileNotFoundError` / `KeyError` / `IndexError`
  raises are modelled by `Except HpError`.
- Floating point angles and map values are modelled by `ℚ`; a NaN produced
  by an undefined inverse projection is modelled by `none : Option ℚ`.
- External collaborators (healpy's `ang2pix`, `get_interp_val`,
  `query_disc`, astropy's WCS transforms and frame rotations) are taken as
  function parameters of the embedded code, since the repository only
  glues them together; their documented contracts appear as hypotheses.
- The degree→radian conversions (`np.radians`) applied immediately before
  calling the external healpix primitives are absorbed into those
  parameters: the modelled primitives take their angles in degrees.
-/

deriving instance DecidableEq for Except

/-- Errors raised by the embedded code (all `ValueError`/`IOError` style
raises in the source, distinguished by their message/kind). -/
inductive HpError where
  | missingOrdering
  | unknownOrdering
  | missingCoordsys
  | unknownFrame
  | unsupportedOrder
  | noInput
  | badNpix
  | indexError
  | keyError
  | missingLonlat
  deriving DecidableEq, Repr

/-- The two celestial frames supported by the code (astropy `Galactic()` and
`ICRS()`; Ecliptic is explicitly rejected). -/
inductive CelFrame where
  | galactic
  | icrs
  deriving DecidableEq, Repr

/-- astropy frame attribute `.name`, as used by `hpmap_key`. -/
def CelFrame.name : CelFrame → String
  | .galactic => "galactic"
  | .icrs => "icrs"

/-- Model of Python `str.lower()` (character-wise ASCII lowering). -/
def strLower (s : String) : String := ⟨s.data.map Char.toLower⟩

/-- The header of a healpix map, restricted to the fields the core reads. -/
structure HpHeader where
  nside : Nat
  ordering : Option String
  coordsys : Option String
  deriving DecidableEq, Repr

/-- Modelled from the spec: `equiv_celestial` lives in `wcs_helper.py`, which
is not part of the sources; the synonym table follows the spec's Frame
Reconciler contract ("galactic"/"G" galactic; "equatorial"/"celestial2000"/
"EQ"/"C" equatorial), the docstring of `hp_celestial` (adding "Q" equatorial
and rejecting ecliptic "E"), and the repository's own tests, which require
the canonical frames to be astropy `Galactic()` and `ICRS()` and the match
to be case-insensitive. -/
def equiv_celestial (frame : String) : Except HpError CelFrame :=
  if strLower frame = "galactic" ∨ strLower frame = "g" then .ok .galactic
  else if strLower frame = "equatorial" ∨ strLower frame = "eq" ∨
      strLower frame = "c" ∨ strLower frame = "q" ∨
      strLower frame = "celestial2000" ∨ strLower frame = "fk5" ∨
      strLower frame = "icrs" then .ok .icrs
  else .error .unknownFrame

/-- Source `hp_celestial` (hp_helper.py:36): read `COORDSYS` and canonicalize it;
the presence test is Python truthiness (`if coordsys:`), so an empty string
behaves like an absent field. -/
def hp_celestial (hp_header : HpHeader) : Except HpError CelFrame :=
  match hp_header.coordsys with
  | none => .error .missingCoordsys
  | some c => if c = "" then .error .missingCoordsys else equiv_celestial c

/-- Source `hp_is_nest` (hp_helper.py:67): `ORDERING` is read with a `None` default
and tested by truthiness (`if not ordering:`), then compared lower-cased. -/
def hp_is_nest (hp_header : HpHeader) : Except HpError Bool :=
  match hp_header.ordering with
  | none => .error .missingOrdering
  | some o =>
    if o = "" then .error .missingOrdering
    else if strLower o = "nested" ∨ strLower o = "nest" then .ok true
    else if strLower o = "ring" then .ok false
    else .error .unknownOrdering

/-- A longitude/latitude pair produced by the inverse projection; `none`
models a NaN coordinate (output pixel outside the projection's domain). -/
abbrev LonLat := Option ℚ × Option ℚ

/-- The target WCS grid, reduced to what the embedded code consumes: its
celestial frame and its inverse (pixel→sky) transform `wcs_pix2world`,
indexed by (row, column) of the pixel center (C convention, origin 0). -/
structure WCSGrid where
  frame : CelFrame
  pix2world : Nat → Nat → LonLat

/-- The external spherical frame transform performed by astropy in
`rotate_frame` (`realize_frame(...).transform_to(...)`): from coordinates in
the first frame to coordinates in the second. -/
abbrev FrameTransform := CelFrame → CelFrame → ℚ × ℚ → ℚ × ℚ

/-- Source `rotate_frame` (hp_helper.py:92): compare the header's frame with the
WCS frame (`is_equivalent_frame`, which for the data-less `Galactic()` /
`ICRS()` instances is frame equality) and either return the arrays
unchanged or transform them elementwise.  A NaN coordinate stays NaN
through the transform. -/
def rotate_frame (transform : FrameTransform) (lonlat : List LonLat)
    (hp_header : HpHeader) (wcs : WCSGrid) : Except HpError (List LonLat) := do
  let frame_in ← hp_celestial hp_header
  if frame_in = wcs.frame then
    .ok lonlat
  else
    .ok (lonlat.map (fun ll =>
      match ll with
      | (some lon, some lat) =>
        let p := transform wcs.frame frame_in (lon, lat)
        (some p.1, some p.2)
      | _ => (none, none)))

/-- Row-major enumeration of the output grid's (row, column) pixel centers,
as produced by `np.indices(shape_out)`. -/
def gridPixels (ny nx : Nat) : List (Nat × Nat) :=
  (List.range ny).flatMap (fun y => (List.range nx).map (fun x => (y, x)))

/-- healpy's `npix2nside`: recover NSIDE from a map length, failing unless
the length is `12·n²` for a power of two `n`. -/
def npix2nside (npix : Nat) : Except HpError Nat :=
  if 12 * Nat.sqrt (npix / 12) ^ 2 = npix ∧ ∃ k < npix, Nat.sqrt (npix / 12) = 2 ^ k
  then .ok (Nat.sqrt (npix / 12)) else .error .badNpix

/-- Assignment `proj_map[mask] = values` on a NaN-filled masked array: the `True`
positions of `mask` receive the successive entries of `values`, all other
positions stay NaN. -/
def fillMask : List Bool → List ℚ → List (Option ℚ)
  | [], _ => []
  | true :: ms, v :: vs => some v :: fillMask ms vs
  | true :: ms, [] => none :: fillMask ms []
  | false :: ms, vs => none :: fillMask ms vs

/-- The healpix colatitude/azimuth convention used by the source
(`phi = radians(alon)`, `theta = radians(90 - alat)`), in degrees. -/
def thetaPhi (ll : LonLat) : ℚ × ℚ := (90 - (ll.2.getD 0), ll.1.getD 0)

/-- healpy's `ang2pix`, abstract: NSIDE, nest flag, colatitude, azimuth. -/
abbrev Ang2Pix := Nat → Bool → ℚ → ℚ → Nat

/-- Selection `theta[mask]`/`phi[mask]` followed by `ang2pix`: apply `f` to the
angles of the entries selected by the boolean mask. -/
def maskedMap (f : ℚ × ℚ → Nat) (mask : List Bool) (lonlat : List LonLat) :
    List Nat :=
  (mask.zip lonlat).filterMap (fun ml =>
    if ml.1 then some (f (thetaPhi ml.2)) else none)

/-- Source `hp_to_wcs_ipx` (hp_helper.py:264): compute every output pixel center's
sky position, mask the NaN ones, reconcile frames, and resolve one healpix
index per valid pixel with `ang2pix` at the header's NSIDE. -/
def hp_to_wcs_ipx (ang2pix : Ang2Pix) (transform : FrameTransform)
    (hp_header : HpHeader) (wcs : WCSGrid) (ny nx : Nat) :
    Except HpError (List Bool × List Nat) := do
  let coords := (gridPixels ny nx).map (fun p => wcs.pix2world p.1 p.2)
  let mask := coords.map (fun ll => ll.1.isSome && ll.2.isSome)
  let nside := hp_header.nside
  let rotated ← rotate_frame transform coords hp_header wcs
  let nest ← hp_is_nest hp_header
  let ipix := maskedMap (fun tp => ang2pix nside nest tp.1 tp.2) mask rotated
  .ok (mask, ipix)

/-- healpy's `get_interp_val` (bilinear interpolation), abstract: map data,
nest flag, colatitude, azimuth. -/
abbrev InterpVal := List ℚ → Bool → ℚ → ℚ → ℚ

/-- Source `hp_to_wcs` (hp_helper.py:209): project a healpix map onto the grid.
Order 0 gathers `data[ipix]` through the mask; order 1 interpolates; any
other order raises the unsupported-order `ValueError`.  NSIDE is recovered
from the data length with `npix2nside`. -/
def hp_to_wcs (ang2pix : Ang2Pix) (interp : InterpVal)
    (transform : FrameTransform) (data : List ℚ) (hp_header : HpHeader)
    (wcs : WCSGrid) (ny nx : Nat) (order : Nat) :
    Except HpError (List (Option ℚ)) := do
  let coords := (gridPixels ny nx).map (fun p => wcs.pix2world p.1 p.2)
  let mask := coords.map (fun ll => ll.1.isSome && ll.2.isSome)
  let rotated ← rotate_frame transform coords hp_header wcs
  if order = 0 then
    let nside ← npix2nside data.length
    let nest ← hp_is_nest hp_header
    let ipix := maskedMap (fun tp => ang2pix nside nest tp.1 tp.2) mask rotated
    .ok (fillMask mask (ipix.map (fun i => data.getD i 0)))
  else if order = 1 then
    let nest ← hp_is_nest hp_header
    let vals := (mask.zip rotated).filterMap (fun ml =>
      if ml.1 then some (interp data nest (thetaPhi ml.2).1 (thetaPhi ml.2).2)
      else none)
    .ok (fillMask mask vals)
  else
    .error .unsupportedOrder

/-- Model of `np.setxor1d`: the unique values present in exactly one of the two
arrays (numpy additionally sorts the result; the order is immaterial to the
mean taken over it downstream, and uniqueness is what `dedup` provides). -/
def setxor1d (a b : List Nat) : List Nat :=
  ((a.filter (fun x => !b.contains x)) ++ (b.filter (fun x => !a.contains x))).dedup

/-- Model of `np.mean`: the mean of an empty array is NaN (modelled `none`). -/
def npMean (l : List ℚ) : Option ℚ :=
  match l with
  | [] => none
  | _ => some (l.sum / (l.length : ℚ))

/-- healpy's `query_disc` at the profile's fixed center vector, abstract:
NSIDE, nest flag, disc radius (degrees). -/
abbrev QueryDisc := Nat → Bool → ℚ → List Nat

/-- Source `hp_to_profile` (hp_helper.py:161), on its `std=False` path: build the
bin-edge radii from the 1-D profile WCS (modelled by `radii`, the value of
`wcs.all_pix2world(np.arange(shape_out + 1) - 0.5, 0)[0]` at each index),
query one disc per edge, turn consecutive discs into annuli with
`np.setxor1d`, and average the map over each annulus.  The source reads
`COORDSYS` first (`get_lonlat`), raising a `KeyError` when absent; the
center coordinate itself is absorbed into `queryDisc`. -/
def hp_to_profile (queryDisc : QueryDisc) (data : List ℚ)
    (hp_header : HpHeader) (radii : Nat → ℚ) (shape_out : Nat) :
    Except HpError (List (Option ℚ)) := do
  let _ ← match hp_header.coordsys with
    | none => Except.error HpError.keyError
    | some c => Except.ok c
  let r_edge := (List.range (shape_out + 1)).map radii
  let nside := hp_header.nside
  let nest ← hp_is_nest hp_header
  let i_pix := r_edge.map (fun radius => queryDisc nside nest radius)
  let a_pix := (i_pix.zip i_pix.tail).map (fun p => setxor1d p.1 p.2)
  .ok (a_pix.map (fun pix => npMean (pix.map (fun i => data.getD i 0))))

/-- Decimal digits of `n`, most significant first, written with explicit
fuel so that it is structurally recursive (the fuel `n + 1` always
suffices, since a number has at most `n + 1` decimal digits). -/
def natDigitsAux : Nat → Nat → List Char
  | 0, _ => []
  | fuel + 1, n =>
    if n < 10 then [Nat.digitChar n]
    else natDigitsAux fuel (n / 10) ++ [Nat.digitChar (n % 10)]

/-- Model of Python `str(n)` for a non-negative integer. -/
def natRepr (n : Nat) : String := ⟨natDigitsAux (n + 1) n⟩

/-- One entry of the map-tuple lists handled by `(build|gen)_hpmap` and
`CutSky`: `(filename, healpix data, header)`, with the header already
extended by the per-map options (`legend`, optional `doContour`). -/
structure MapEntry where
  filename : String
  data : List ℚ
  header : HpHeader
  legend : String
  doContour : Option Bool
  deriving DecidableEq

/-- Source `hpmap_key` (hp_helper.py:474): the grouping key
`"%s_%s_%s" % (NSIDE, ORDERING, hp_celestial(header).name)` — NSIDE and the
raw `ORDERING` string from the header, plus the canonicalized frame name.
A missing `ORDERING` is a Python `KeyError`. -/
def hpmap_key (hp_map : MapEntry) : Except HpError String := do
  let i_header := hp_map.header
  let ord ← match i_header.ordering with
    | none => Except.error HpError.keyError
    | some o => Except.ok o
  let frame ← hp_celestial i_header
  .ok (natRepr i_header.nside ++ "_" ++ ord ++ "_" ++ frame.name)

/-- Append an entry to its group, preserving first-seen group order. -/
def insertGroup (key : String) (e : MapEntry) :
    List (String × List MapEntry) → List (String × List MapEntry)
  | [] => [(key, [e])]
  | g :: gs =>
    if g.1 = key then (g.1, g.2 ++ [e]) :: gs else g :: insertGroup key e gs

/-- Modelled from the spec: `group_hpmap` is imported by `cutsky.py` but its
definition is not among the sources; per the spec's Map Grouper contract it
partitions the source maps into an insertion-ordered mapping from the
`hpmap_key` grouping key to the list of maps sharing that key. -/
def group_hpmap (maps : List MapEntry) :
    Except HpError (List (String × List MapEntry)) :=
  maps.foldlM (fun acc e => do
    let key ← hpmap_key e
    Except.ok (insertGroup key e acc)) []

/-- One projected cut: the `legend` identifying the map and the projected
patch (the `fits` ImageHDU data; header bookkeeping is not modelled). -/
structure Cut where
  legend : String
  patch : List (Option ℚ)
  deriving DecidableEq

/-- The mutable state of a `CutSky` instance (cutsky.py:63). -/
structure CutSkyState where
  npix : Nat
  pixsize : ℚ
  ctype : String
  maps : List (String × List MapEntry)
  maps_selection : Option (List String)
  cuts : Option (List Cut)
  lonlat : Option (ℚ × ℚ)
  coordframe : String
  deriving DecidableEq

/-- Python truthiness of an optional list (`None` and `[]` are falsy). -/
def listTruthy {α : Type} : Option (List α) → Bool
  | none => false
  | some l => !l.isEmpty

/-- Model of `build_hpmap`'s file reading, abstract: a map file resolves to its
healpix vector and header. -/
abbrev ReadMap := String → List ℚ × HpHeader

/-- Model of `build_WCS` applied to the requested center and frame, abstract: the
resulting target grid for a cut (its shape is `npix × npix`). -/
abbrev BuildWCS := ℚ × ℚ → String → WCSGrid

/-- Source `CutSky.__init__` (cutsky.py:83): reject an absent map list, read the
headers, extend them with the per-map options and group the maps.  The
input list is `(filename, legend, doContour)` per map, the `{opt}`
dictionary flattened to the two keys the core consumes. -/
def CutSky_init (readMap : ReadMap)
    (maps : Option (List (String × String × Option Bool)))
    (npix : Nat) (pixsize : ℚ) (ctype : String) :
    Except HpError CutSkyState := do
  match maps with
  | none => Except.error HpError.noInput
  | some maps =>
    let entries := maps.map (fun m =>
      let rd := readMap m.1
      { filename := m.1, data := rd.1, header := rd.2,
        legend := m.2.1, doContour := m.2.2 : MapEntry })
    let groups ← group_hpmap entries
    Except.ok { npix := npix, pixsize := pixsize, ctype := ctype,
                maps := groups, maps_selection := none, cuts := none,
                lonlat := none, coordframe := "galactic" }

/-- Source `CutSky.cut_fits` (cutsky.py:150): store the requested selection, build
the target WCS (validating the frame name on the way), then per group
resolve mask/indices once with `hp_to_wcs_ipx` on the first member's header
and apply them to every member whose legend passes the selection filter.
The new state remembers the request (`lonlat`, `coordframe`, `cuts`). -/
def cut_fits (ang2pix : Ang2Pix) (transform : FrameTransform)
    (buildWCS : BuildWCS) (s : CutSkyState) (lonlat : ℚ × ℚ)
    (coordframe : String) (maps_selection : Option (List String)) :
    Except HpError (List Cut × CutSkyState) := do
  let s1 := { s with maps_selection := maps_selection }
  let _ ← equiv_celestial coordframe
  let w := buildWCS lonlat coordframe
  let cuts ← s1.maps.foldlM (fun acc group => do
    match group.2 with
    | [] => Except.error HpError.indexError
    | first :: _ =>
      let mi ← hp_to_wcs_ipx ang2pix transform first.header w s1.npix s1.npix
      let gcuts := group.2.filterMap (fun e =>
        if listTruthy s1.maps_selection &&
            !((s1.maps_selection.getD []).contains e.legend) then none
        else some { legend := e.legend,
                    patch := fillMask mi.1 (mi.2.map (fun i => e.data.getD i 0)) })
      Except.ok (acc ++ gcuts)) []
  Except.ok (cuts,
    { s1 with lonlat := some lonlat, coordframe := coordframe,
              cuts := some cuts })

/-- Source `CutSky.cut_png` (cutsky.py:221): return the remembered cuts when the
request equals the previous one (including the truthiness test `self.cuts`),
otherwise recompute through `cut_fits` — which the source calls without
forwarding `maps_selection`, so the recomputation uses `cut_fits`'s default
selection `None`.  The figure setup reads `cuts[0]`, an `IndexError` on an
empty cut list; the png rendering itself is external and leaves the cut
list unchanged. -/
def cut_png (ang2pix : Ang2Pix) (transform : FrameTransform)
    (buildWCS : BuildWCS) (s : CutSkyState) (lonlat : ℚ × ℚ)
    (coordframe : String) (maps_selection : Option (List String)) :
    Except HpError (List Cut × CutSkyState) := do
  let r ←
    if s.lonlat = some lonlat ∧ s.coordframe = coordframe ∧
        s.maps_selection = maps_selection ∧ listTruthy s.cuts then
      Except.ok (s.cuts.getD [], s)
    else
      cut_fits ang2pix transform buildWCS s lonlat coordframe none
  match r.1 with
  | [] => Except.error HpError.indexError
  | _ => Except.ok r

/-- Source `CutSky.cut_phot` (cutsky.py:302): the same cache test and the same
non-forwarded `maps_selection` on recomputation; the photometry itself is
external and leaves the cut list unchanged (no `cuts[0]` access here). -/
def cut_phot (ang2pix : Ang2Pix) (transform : FrameTransform)
    (buildWCS : BuildWCS) (s : CutSkyState) (lonlat : ℚ × ℚ)
    (coordframe : String) (maps_selection : Option (List String)) :
    Except HpError (List Cut × CutSkyState) := do
  let r ←
    if s.lonlat = some lonlat ∧ s.coordframe = coordframe ∧
        s.maps_selection = maps_selection ∧ listTruthy s.cuts then
      Except.ok (s.cuts.getD [], s)
    else
      cut_fits ang2pix transform buildWCS s lonlat coordframe none
  Except.ok r

/-- The `cutsky` convenience function (cutsky.py:384): validate `lonlat`
and `maps`, build a `CutSky` and run `cut_png` then `cut_phot` on it. -/
def cutsky (ang2pix : Ang2Pix) (transform : FrameTransform)
    (buildWCS : BuildWCS) (readMap : ReadMap) (lonlat : Option (ℚ × ℚ))
    (maps : Option (List (String × String × Option Bool)))
    (npix : Nat) (pixsize : ℚ) (coordframe : String) (ctype : String) :
    Except HpError (List Cut) := do
  match lonlat with
  | none => Except.error HpError.missingLonlat
  | some ll =>
    match maps with
    | none => Except.error HpError.noInput
    | some ms =>
      let s ← CutSky_init readMap (some ms) npix pixsize ctype
      let r1 ← cut_png ang2pix transform buildWCS s ll coordframe none
      let r2 ← cut_phot ang2pix transform buildWCS r1.2 ll coordframe none
      Except.ok r2.1

/-- Concrete fixtures used by the witnesses: an index resolver that always
answers pixel 0, the identity frame transform, a one-row two-column grid
whose second pixel has an undefined longitude, and a valid NSIDE=1 RING
Galactic header. -/
def a2pZero : Ang2Pix := fun _ _ _ _ => 0

def trSwap : FrameTransform := fun _ _ p => (p.2, p.1)

def wcsG : WCSGrid :=
  ⟨.galactic, fun _ x => if x = 0 then (some 0, some 0) else (none, some 0)⟩

def hdrG : HpHeader := ⟨1, some "RING", some "G"⟩

@[simp] theorem except_bind_ok {ε α β : Type} (a : α) (f : α → Except ε β) :
    (Except.ok a >>= f) = f a := rfl

@[simp] theorem except_bind_error {ε α β : Type} (e : ε) (f : α → Except ε β) :
    ((Except.error e : Except ε α) >>= f) = Except.error e := rfl

theorem maskedMap_length (f : ℚ × ℚ → Nat) :
    ∀ (bs : List Bool) (l : List LonLat), bs.length ≤ l.length →
      (maskedMap f bs l).length = bs.count true := by
  intro bs
  induction bs with
  | nil => intro l _; simp [maskedMap]
  | cons b bs ih =>
    intro l h
    cases l with
    | nil => simp at h
    | cons x xs =>
      simp only [List.length_cons, Nat.add_le_add_iff_right] at h
      cases b <;>
        simp [maskedMap, List.count_cons, List.zip_cons_cons,
          List.filterMap_cons] <;>
        simpa [maskedMap] using ih xs h

theorem maskedMap_mem (f : ℚ × ℚ → Nat) (bs : List Bool) (l : List LonLat)
    (i : Nat) (hi : i ∈ maskedMap f bs l) : ∃ tp, i = f tp := by
  rcases List.mem_filterMap.mp hi with ⟨⟨b, ll⟩, _, hif⟩
  cases b with
  | false => simp at hif
  | true => exact ⟨thetaPhi ll, by simpa using hif.symm⟩

theorem gridPixels_length (ny nx : Nat) : (gridPixels ny nx).length = ny * nx := by
  simp [gridPixels, Function.comp_def, Nat.mul_comm]

theorem rotate_frame_length (transform : FrameTransform) (lonlat : List LonLat)
    (hp_header : HpHeader) (wcs : WCSGrid) (out : List LonLat)
    (h : rotate_frame transform lonlat hp_header wcs = .ok out) :
    out.length = lonlat.length := by
  cases hc : hp_celestial hp_header with
  | error e => simp [rotate_frame, hc] at h
  | ok f =>
    by_cases hf : f = wcs.frame
    · simp only [rotate_frame, hc, hf, except_bind_ok, reduceIte,
        Except.ok.injEq] at h
      simp [← h]
    · simp only [rotate_frame, hc, hf, except_bind_ok, reduceIte,
        Except.ok.injEq] at h
      simp [← h]

/-- C1: for every target grid and healpix header accepted by
`hp_to_wcs_ipx` (valid ORDERING and COORDSYS), and any index resolver
meeting healpy's `ang2pix` range contract at the header's NSIDE, the
returned index array has exactly as many entries as the mask has `True`
pixels, and every returned index is a valid pixel id below `12·NSIDE²`. -/
theorem hp_to_wcs_ipx_mask_count_and_range
    (ang2pix : Ang2Pix) (transform : FrameTransform) (hp_header : HpHeader)
    (wcs : WCSGrid) (ny nx : Nat) (mask : List Bool) (ipix : List Nat)
    (hrange : ∀ nest θ φ, ang2pix hp_header.nside nest θ φ < 12 * hp_header.nside ^ 2)
    (hok : hp_to_wcs_ipx ang2pix transform hp_header wcs ny nx = .ok (mask, ipix)) :
    ipix.length = mask.count true ∧ ∀ i ∈ ipix, i < 12 * hp_header.nside ^ 2 := by
  cases hc : hp_celestial hp_header with
  | error e => simp [hp_to_wcs_ipx, rotate_frame, hc] at hok
  | ok f =>
    cases hn : hp_is_nest hp_header with
    | error e =>
      by_cases hf : f = wcs.frame <;>
        simp [hp_to_wcs_ipx, rotate_frame, hc, hn, hf] at hok
    | ok nest =>
      by_cases hf : f = wcs.frame <;>
        · simp only [hp_to_wcs_ipx, rotate_frame, hc, hn, hf, except_bind_ok,
            reduceIte, Except.ok.injEq, Prod.mk.injEq] at hok
          obtain ⟨hmask, hipix⟩ := hok
          subst hmask hipix
          constructor
          · apply maskedMap_length
            simp
          · intro i hi
            rcases maskedMap_mem _ _ _ _ hi with ⟨tp, rfl⟩
            exact hrange nest tp.1 tp.2

/-- Closed witness for C1 at a concrete grid with one valid and one
undefined pixel. -/
theorem hp_to_wcs_ipx_mask_count_and_range_witness :
    (∀ nest θ φ, a2pZero 1 nest θ φ < 12 * 1 ^ 2) ∧
    ([0] : List Nat).length = ([true, false] : List Bool).count true ∧
    ∀ i ∈ ([0] : List Nat), i < 12 * 1 ^ 2 := by
  refine ⟨fun nest θ φ => by norm_num [a2pZero], ?_⟩
  have h := hp_to_wcs_ipx_mask_count_and_range a2pZero trSwap hdrG wcsG 1 2
    [true, false] [0] (fun nest θ φ => by norm_num [a2pZero, hdrG]) (by decide)
  exact h

/-- C2: `rotate_frame` is the identity whenever the header's canonicalized
frame equals the target WCS frame, and otherwise applies the external
spherical transform elementwise; the canonicalization recognizes the
synonyms named by the spec ("G"/"Galactic" galactic, "EQ"/"C"/
"celestial2000"/"Equatorial" equatorial). -/
theorem rotate_frame_noop_iff_equiv
    (transform : FrameTransform) (lonlat : List LonLat) (hp_header : HpHeader)
    (wcs : WCSGrid) (f : CelFrame)
    (hc : hp_celestial hp_header = .ok f) :
    (f = wcs.frame → rotate_frame transform lonlat hp_header wcs = .ok lonlat) ∧
    (f ≠ wcs.frame → rotate_frame transform lonlat hp_header wcs =
      .ok (lonlat.map (fun ll =>
        match ll with
        | (some lon, some lat) =>
          (some (transform wcs.frame f (lon, lat)).1,
           some (transform wcs.frame f (lon, lat)).2)
        | _ => (none, none)))) ∧
    equiv_celestial "G" = .ok .galactic ∧
    equiv_celestial "Galactic" = .ok .galactic ∧
    equiv_celestial "EQ" = .ok .icrs ∧
    equiv_celestial "C" = .ok .icrs ∧
    equiv_celestial "celestial2000" = .ok .icrs ∧
    equiv_celestial "Equatorial" = .ok .icrs := by
  refine ⟨fun hf => ?_, fun hf => ?_, by decide, by decide, by decide,
    by decide, by decide, by decide⟩
  · simp [rotate_frame, hc, hf]
  · simp [rotate_frame, hc, hf]

/-- Closed witness for C2: a Galactic-header map against a Galactic grid is
left untouched, while the same map against an equatorial grid goes through
the transform. -/
theorem rotate_frame_noop_iff_equiv_witness :
    rotate_frame trSwap [(some 1, some 2)] hdrG wcsG = .ok [(some 1, some 2)] ∧
    rotate_frame trSwap [(some 1, some 2)] hdrG ⟨.icrs, wcsG.pix2world⟩ =
      .ok [(some 2, some 1)] := by
  constructor
  · exact (rotate_frame_noop_iff_equiv trSwap [(some 1, some 2)] hdrG wcsG
      .galactic (by decide)).1 rfl
  · have h := (rotate_frame_noop_iff_equiv trSwap [(some 1, some 2)] hdrG
      ⟨.icrs, wcsG.pix2world⟩ .galactic (by decide)).2.1 (by decide)
    simpa [trSwap] using h

def interpZero : InterpVal := fun _ _ _ _ => 0

theorem equiv_celestial_error (frame : String) (e : HpError)
    (h : equiv_celestial frame = .error e) : e = .unknownFrame := by
  unfold equiv_celestial at h
  split_ifs at h
  simp_all

theorem hp_celestial_error (hd : HpHeader) (e : HpError)
    (h : hp_celestial hd = .error e) :
    e = .missingCoordsys ∨ e = .unknownFrame := by
  unfold hp_celestial at h
  cases hc : hd.coordsys with
  | none => simp [hc] at h; simp [h]
  | some c =>
    simp only [hc] at h
    split_ifs at h with h1
    · simp at h; simp [h]
    · exact Or.inr (equiv_celestial_error c e h)

theorem hp_is_nest_error (hd : HpHeader) (e : HpError)
    (h : hp_is_nest hd = .error e) :
    e = .missingOrdering ∨ e = .unknownOrdering := by
  unfold hp_is_nest at h
  cases hc : hd.ordering with
  | none => simp [hc] at h; simp [h]
  | some o =>
    simp only [hc] at h
    split_ifs at h <;> simp_all

theorem npix2nside_error (npix : Nat) (e : HpError)
    (h : npix2nside npix = .error e) : e = .badNpix := by
  unfold npix2nside at h
  split_ifs at h
  simp_all

theorem npix2nside_ok (npix n : Nat) (h : npix2nside npix = .ok n) :
    12 * n ^ 2 = npix ∧ 0 < n := by
  unfold npix2nside at h
  split_ifs at h with h1
  · simp only [Except.ok.injEq] at h
    subst h
    rcases h1.2 with ⟨k, _, hk⟩
    exact ⟨h1.1, hk ▸ Nat.pos_pow_of_pos k (by norm_num)⟩

/-- C9: with a header whose frame is accepted, `hp_to_wcs` raises the
unsupported-order error for every sampling order other than 0 and 1, and
never raises that error for orders 0 and 1 (whatever else the inputs are). -/
theorem hp_to_wcs_order_errors
    (ang2pix : Ang2Pix) (interp : InterpVal) (transform : FrameTransform)
    (data : List ℚ) (hp_header : HpHeader) (wcs : WCSGrid) (ny nx : Nat) :
    (∀ f, hp_celestial hp_header = .ok f → ∀ order, order ≠ 0 → order ≠ 1 →
      hp_to_wcs ang2pix interp transform data hp_header wcs ny nx order =
        .error .unsupportedOrder) ∧
    (hp_to_wcs ang2pix interp transform data hp_header wcs ny nx 0 ≠
      .error .unsupportedOrder) ∧
    (hp_to_wcs ang2pix interp transform data hp_header wcs ny nx 1 ≠
      .error .unsupportedOrder) := by
  refine ⟨fun f hc order h0 h1 => ?_, ?_, ?_⟩
  · by_cases hf : f = wcs.frame <;>
      simp [hp_to_wcs, rotate_frame, hc, hf, h0, h1]
  · intro hcontra
    cases hc : hp_celestial hp_header with
    | error e =>
      simp only [hp_to_wcs, rotate_frame, hc, except_bind_error,
        Except.error.injEq] at hcontra
      rcases hp_celestial_error _ _ hc with h | h <;> simp [h] at hcontra
    | ok f =>
      by_cases hf : f = wcs.frame <;>
        · simp only [hp_to_wcs, rotate_frame, hc, hf, except_bind_ok,
            reduceIte] at hcontra
          cases hnp : npix2nside data.length with
          | error e =>
            simp only [hnp, except_bind_error, Except.error.injEq] at hcontra
            simp [npix2nside_error _ _ hnp] at hcontra
          | ok n =>
            cases hn : hp_is_nest hp_header with
            | error e =>
              simp only [hnp, hn, except_bind_ok, except_bind_error,
                Except.error.injEq] at hcontra
              rcases hp_is_nest_error _ _ hn with h | h <;>
                simp [h] at hcontra
            | ok nest => simp [hnp, hn] at hcontra
  · intro hcontra
    cases hc : hp_celestial hp_header with
    | error e =>
      simp only [hp_to_wcs, rotate_frame, hc, except_bind_error,
        Except.error.injEq] at hcontra
      rcases hp_celestial_error _ _ hc with h | h <;> simp [h] at hcontra
    | ok f =>
      by_cases hf : f = wcs.frame <;>
        · simp only [hp_to_wcs, rotate_frame, hc, hf, except_bind_ok,
            reduceIte, one_ne_zero] at hcontra
          cases hn : hp_is_nest hp_header with
          | error e =>
            simp only [hn, except_bind_error, Except.error.injEq] at hcontra
            rcases hp_is_nest_error _ _ hn with h | h <;> simp [h] at hcontra
          | ok nest => simp [hn] at hcontra

/-- Closed witness for C9: order 2 raises the unsupported-order error on a
valid header, orders 0 and 1 never do. -/
theorem hp_to_wcs_order_errors_witness :
    hp_to_wcs a2pZero interpZero trSwap [1] hdrG wcsG 1 2 2 =
      .error .unsupportedOrder ∧
    hp_to_wcs a2pZero interpZero trSwap [1] hdrG wcsG 1 2 0 ≠
      .error .unsupportedOrder := by
  have h := hp_to_wcs_order_errors a2pZero interpZero trSwap [1] hdrG wcsG 1 2
  exact ⟨h.1 .galactic (by decide) 2 (by decide) (by decide), h.2.1⟩

theorem getD_replicate_of_lt (v : ℚ) :
    ∀ (N i : Nat), i < N → (List.replicate N v).getD i 0 = v := by
  intro N
  induction N with
  | zero => intro i h; omega
  | succ n ih =>
    intro i h
    cases i with
    | zero => simp [List.replicate]
    | succ j => simpa [List.replicate] using ih j (by omega)

theorem fillMask_const (c : ℚ) :
    ∀ (bs : List Bool) (vs : List ℚ), (∀ v ∈ vs, v = c) →
      bs.count true ≤ vs.length →
      fillMask bs vs = bs.map (fun b => if b then some c else none) := by
  intro bs
  induction bs with
  | nil => intro vs _ _; simp [fillMask]
  | cons b bs ih =>
    intro vs hall hlen
    cases b with
    | false => simpa [fillMask] using ih vs hall (by simpa [List.count_cons] using hlen)
    | true =>
      cases vs with
      | nil => simp [List.count_cons] at hlen
      | cons v vs =>
        have hv : v = c := hall v (by simp)
        have : fillMask (true :: bs) (v :: vs) = some v :: fillMask bs vs := rfl
        rw [this, hv, ih vs (fun x hx => hall x (by simp [hx]))
          (by simpa [List.count_cons] using hlen)]
        simp

theorem fillMask_length :
    ∀ (bs : List Bool) (vs : List ℚ), (fillMask bs vs).length = bs.length := by
  intro bs
  induction bs with
  | nil => intro vs; simp [fillMask]
  | cons b bs ih =>
    intro vs
    cases b with
    | false => simp [fillMask, ih]
    | true => cases vs <;> simp [fillMask, ih]

/-- The order-0 gather on a uniform map fills every masked pixel with the
uniform value, for any index list produced by an in-range resolver. -/
theorem fillMask_maskedMap_uniform (ang2pix : Ang2Pix) (n N : Nat)
    (nest : Bool) (v : ℚ) (hnpos : 0 < n) (h12 : 12 * n ^ 2 = N)
    (hrange : ∀ m ne θ φ, 0 < m → ang2pix m ne θ φ < 12 * m ^ 2)
    (mask : List Bool) (rot : List LonLat) (hlen : mask.length ≤ rot.length) :
    fillMask mask ((maskedMap (fun tp => ang2pix n nest tp.1 tp.2) mask
      rot).map (fun i => (List.replicate N v).getD i 0)) =
    mask.map (fun b => if b then some v else none) := by
  apply fillMask_const
  · intro x hx
    rcases List.mem_map.mp hx with ⟨i, hi, rfl⟩
    rcases maskedMap_mem _ _ _ _ hi with ⟨tp, rfl⟩
    exact getD_replicate_of_lt v N _ (h12 ▸ hrange n nest tp.1 tp.2 hnpos)
  · rw [List.length_map, maskedMap_length _ _ _ hlen]

/-- C5: nearest-neighbor projection (`order = 0`) of a uniform map of value
`v` yields a `ny·nx` array equal to `v` at every output pixel whose sky
coordinate is defined and NaN at every pixel where the inverse projection
is undefined, for any resolver meeting `ang2pix`'s range contract. -/
theorem hp_to_wcs_uniform_nearest
    (ang2pix : Ang2Pix) (interp : InterpVal) (transform : FrameTransform)
    (hp_header : HpHeader) (wcs : WCSGrid) (ny nx N : Nat) (v : ℚ)
    (out : List (Option ℚ))
    (hrange : ∀ n nest θ φ, 0 < n → ang2pix n nest θ φ < 12 * n ^ 2)
    (hok : hp_to_wcs ang2pix interp transform (List.replicate N v) hp_header
      wcs ny nx 0 = .ok out) :
    out.length = ny * nx ∧
    out = (gridPixels ny nx).map (fun p =>
      if ((wcs.pix2world p.1 p.2).1.isSome && (wcs.pix2world p.1 p.2).2.isSome)
      then some v else none) := by
  have hlenN : (List.replicate N v).length = N := List.length_replicate N v
  cases hc : hp_celestial hp_header with
  | error e => simp [hp_to_wcs, rotate_frame, hc] at hok
  | ok f =>
    cases hnp : npix2nside N with
    | error e =>
      by_cases hf : f = wcs.frame <;>
        simp [hp_to_wcs, rotate_frame, hc, hf, hlenN, hnp] at hok
    | ok n =>
      cases hn : hp_is_nest hp_header with
      | error e =>
        by_cases hf : f = wcs.frame <;>
          simp [hp_to_wcs, rotate_frame, hc, hf, hlenN, hnp, hn] at hok
      | ok nest =>
        obtain ⟨h12, hnpos⟩ := npix2nside_ok _ _ hnp
        by_cases hf : f = wcs.frame
        · simp only [hp_to_wcs, rotate_frame, hc, hf, except_bind_ok,
            reduceIte, hlenN, hnp, hn, Except.ok.injEq] at hok
          rw [← hok,
            fillMask_maskedMap_uniform ang2pix n N nest v hnpos h12 hrange _ _
              (by simp)]
          constructor
          · simp [gridPixels_length]
          · simp only [List.map_map]
            rfl
        · simp only [hp_to_wcs, rotate_frame, hc, hf, except_bind_ok,
            reduceIte, hlenN, hnp, hn, Except.ok.injEq] at hok
          rw [← hok,
            fillMask_maskedMap_uniform ang2pix n N nest v hnpos h12 hrange _ _
              (by simp)]
          constructor
          · simp [gridPixels_length]
          · simp only [List.map_map]
            rfl

/-- Closed witness for C5 on a 1×2 grid with one undefined pixel and a
uniform NSIDE=1 map of value 7. -/
theorem hp_to_wcs_uniform_nearest_witness :
    ∃ out, hp_to_wcs a2pZero interpZero trSwap (List.replicate 12 7) hdrG
      wcsG 1 2 0 = .ok out ∧
    out.length = 1 * 2 ∧
    out = (gridPixels 1 2).map (fun p =>
      if ((wcsG.pix2world p.1 p.2).1.isSome && (wcsG.pix2world p.1 p.2).2.isSome)
      then some 7 else none) := by
  refine ⟨[some 7, none], by decide, ?_⟩
  exact hp_to_wcs_uniform_nearest a2pZero interpZero trSwap hdrG wcsG 1 2 12 7
    [some 7, none]
    (fun n nest θ φ hn => by
      simp only [a2pZero]
      exact Nat.mul_pos (by norm_num) (pow_pos hn 2))
    (by decide)

theorem map_range_tail {γ : Type} (f : Nat → γ) (n : Nat) :
    ((List.range (n + 1)).map f).tail = (List.range n).map (fun i => f (i + 1)) := by
  rw [List.range_succ_eq_map]
  simp [List.map_map]

theorem zip_map_range {γ : Type} (f g : Nat → γ) (n : Nat) :
    ((List.range (n + 1)).map f).zip ((List.range n).map g) =
      (List.range n).map (fun i => (f i, g i)) := by
  apply List.ext_getElem
  · simp [Nat.min_def]
  · intro i h1 h2
    simp [List.getElem_zip, List.getElem_range]

/-- Python `zip(l[:-1], l[1:])` on `l = [f 0, ..., f n]` is the list of
consecutive pairs `(f i, f (i+1))`. -/
theorem zip_tail_consec {γ : Type} (f : Nat → γ) (n : Nat) :
    ((List.range (n + 1)).map f).zip (((List.range (n + 1)).map f).tail) =
      (List.range n).map (fun i => (f i, f (i + 1))) := by
  rw [map_range_tail]
  exact zip_map_range f (fun i => f (i + 1)) n

theorem getD_map_range {γ : Type} [Inhabited γ] (h : Nat → γ) (n i : Nat)
    (d : γ) (hi : i < n) : ((List.range n).map h).getD i d = h i := by
  rw [List.getD_eq_getElem?_getD, List.getElem?_map, List.getElem?_range hi]
  rfl

/-- C4: each bin of `hp_to_profile`'s output is the mean of the map over
the symmetric difference of consecutive query-disc pixel sets (annuli, not
cumulative disks), an empty bin yields NaN, and the output has exactly
`shape_out` entries. -/
theorem hp_to_profile_annuli
    (queryDisc : QueryDisc) (data : List ℚ) (hp_header : HpHeader)
    (radii : Nat → ℚ) (shape_out : Nat) (nest : Bool) (prof : List (Option ℚ))
    (hnest : hp_is_nest hp_header = .ok nest)
    (hok : hp_to_profile queryDisc data hp_header radii shape_out = .ok prof) :
    prof.length = shape_out ∧
    prof = (List.range shape_out).map (fun i =>
      npMean ((setxor1d (queryDisc hp_header.nside nest (radii i))
        (queryDisc hp_header.nside nest (radii (i + 1)))).map
        (fun p => data.getD p 0))) ∧
    ∀ i < shape_out,
      setxor1d (queryDisc hp_header.nside nest (radii i))
        (queryDisc hp_header.nside nest (radii (i + 1))) = [] →
      prof.getD i (some 0) = none := by
  cases hcs : hp_header.coordsys with
  | none => simp [hp_to_profile, hcs] at hok
  | some c =>
    simp only [hp_to_profile, hcs, hnest, except_bind_ok, List.map_map,
      Except.ok.injEq] at hok
    rw [zip_tail_consec ((fun radius => queryDisc hp_header.nside nest radius) ∘
      radii) shape_out] at hok
    rw [List.map_map] at hok
    have hprof : prof = (List.range shape_out).map (fun i =>
        npMean ((setxor1d (queryDisc hp_header.nside nest (radii i))
          (queryDisc hp_header.nside nest (radii (i + 1)))).map
          (fun p => data.getD p 0))) := by
      rw [← hok]
      rfl
    refine ⟨by rw [hprof]; simp, hprof, ?_⟩
    intro i hi hempty
    rw [hprof, getD_map_range _ _ _ _ hi, hempty]
    rfl

/-- Closed witness for C4 with two all-empty discs: both annuli are empty
and both bins are NaN. -/
theorem hp_to_profile_annuli_witness :
    ([none, none] : List (Option ℚ)).length = 2 ∧
    ([none, none] : List (Option ℚ)).getD 0 (some 0) = none := by
  have h := hp_to_profile_annuli (fun _ _ _ => []) [] hdrG (fun i => (i : ℚ))
    2 false [none, none] (by decide) (by decide)
  exact ⟨h.1, h.2.2 0 (by norm_num) (by decide)⟩

/-- C8 counterexample: a header whose ORDERING is present but equal to the
empty string is "present but not one of the recognized values", yet
`hp_is_nest` raises the missing-ordering error, not the unknown-ordering
error the claim requires there. -/
theorem hp_is_nest_empty_ordering_counterexample :
    hp_is_nest ⟨64, some "", some "C"⟩ = .error .missingOrdering ∧
    hp_is_nest ⟨64, some "", some "C"⟩ ≠ .error .unknownOrdering := by
  exact ⟨by decide, by decide⟩

/-- C8 amended: `hp_is_nest` raises the missing-ordering error when
ORDERING is absent or empty (falsy), raises the unknown-ordering error when
ORDERING is present, non-empty and not recognized, returns `true` exactly
when the lower-cased value is "nested" or "nest" and `false` when it is
"ring". -/
theorem hp_is_nest_amended (n : Nat) (c : Option String) (o : String) :
    hp_is_nest ⟨n, none, c⟩ = .error .missingOrdering ∧
    hp_is_nest ⟨n, some "", c⟩ = .error .missingOrdering ∧
    (o ≠ "" → strLower o ≠ "nested" → strLower o ≠ "nest" →
      strLower o ≠ "ring" →
      hp_is_nest ⟨n, some o, c⟩ = .error .unknownOrdering) ∧
    ((strLower o = "nested" ∨ strLower o = "nest") →
      hp_is_nest ⟨n, some o, c⟩ = .ok true) ∧
    (strLower o = "ring" → hp_is_nest ⟨n, some o, c⟩ = .ok false) := by
  refine ⟨rfl, rfl, fun h0 h1 h2 h3 => ?_, fun h => ?_, fun h => ?_⟩
  · simp [hp_is_nest, h0, h1, h2, h3]
  · have ho : o ≠ "" := by
      rintro rfl
      simp [strLower] at h
    simp [hp_is_nest, ho, h]
  · have ho : o ≠ "" := by
      rintro rfl
      simp [strLower] at h
    have h1 : ¬(strLower o = "nested" ∨ strLower o = "nest") := by
      rw [h]; decide
    simp [hp_is_nest, ho, h, h1]

/-- Closed witness for the amended C8 at "spiral" and "RING". -/
theorem hp_is_nest_amended_witness :
    hp_is_nest ⟨64, some "spiral", none⟩ = .error .unknownOrdering ∧
    hp_is_nest ⟨64, some "RING", none⟩ = .ok false := by
  exact ⟨(hp_is_nest_amended 64 none "spiral").2.2.1 (by decide) (by decide)
      (by decide) (by decide),
    (hp_is_nest_amended 64 none "RING").2.2.2.2 (by decide)⟩

/-- C10: a header whose ORDERING field is present but equal to the empty
string (the falsy string value) makes `hp_is_nest` take the
missing-ordering branch, not the unknown-ordering one, because presence is
tested by Python truthiness rather than key membership. -/
theorem hp_is_nest_falsy_ordering (n : Nat) (c : Option String) :
    hp_is_nest ⟨n, some "", c⟩ = .error .missingOrdering ∧
    hp_is_nest ⟨n, some "", c⟩ ≠ .error .unknownOrdering := by
  refine ⟨rfl, fun h => ?_⟩
  rw [show hp_is_nest ⟨n, some "", c⟩ = .error .missingOrdering from rfl] at h
  simp at h

/-- Decimal parse, a left inverse of `natDigitsAux`. -/
def parseDigits (l : List Char) : Nat :=
  l.foldl (fun a c => 10 * a + (c.toNat - 48)) 0

theorem digitChar_toNat (m : Nat) (h : m < 10) :
    (Nat.digitChar m).toNat = m + 48 := by
  interval_cases m <;> rfl

theorem parseDigits_append_digit (l : List Char) (c : Char) :
    parseDigits (l ++ [c]) = 10 * parseDigits l + (c.toNat - 48) := by
  simp [parseDigits, List.foldl_append]

theorem parseDigits_natDigitsAux :
    ∀ (fuel n : Nat), n < fuel → parseDigits (natDigitsAux fuel n) = n := by
  intro fuel
  induction fuel with
  | zero => intro n h; omega
  | succ f ih =>
    intro n h
    by_cases h10 : n < 10
    · rw [show natDigitsAux (f + 1) n = [Nat.digitChar n] by
        simp [natDigitsAux, h10]]
      simp [parseDigits, digitChar_toNat n h10]
    · have hd : n / 10 < f := by
        have h1 : n / 10 < n := Nat.div_lt_self (by omega) (by omega)
        omega
      rw [show natDigitsAux (f + 1) n =
          natDigitsAux f (n / 10) ++ [Nat.digitChar (n % 10)] by
        simp [natDigitsAux, h10]]
      rw [parseDigits_append_digit, ih _ hd,
        digitChar_toNat _ (Nat.mod_lt n (by omega))]
      omega

theorem natRepr_inj (a b : Nat) (h : natRepr a = natRepr b) : a = b := by
  have hd : natDigitsAux (a + 1) a = natDigitsAux (b + 1) b :=
    congrArg String.data h
  have hp := congrArg parseDigits hd
  rwa [parseDigits_natDigitsAux _ _ (Nat.lt_succ_self a),
    parseDigits_natDigitsAux _ _ (Nat.lt_succ_self b)] at hp

/-- Cancelling a separator occurrence: two decompositions around a
character that appears in neither prefix coincide. -/
theorem append_sep_inj (c : Char) :
    ∀ (x1 x2 r1 r2 : List Char),
      x1 ++ c :: r1 = x2 ++ c :: r2 → c ∉ x1 → c ∉ x2 →
      x1 = x2 ∧ r1 = r2 := by
  intro x1
  induction x1 with
  | nil =>
    intro x2 r1 r2 h _ hx2
    cases x2 with
    | nil => simpa using h
    | cons b t =>
      simp only [List.nil_append, List.cons_append, List.cons.injEq] at h
      rcases h with ⟨h1, _⟩
      subst h1
      exact absurd (List.mem_cons_self c t) hx2
  | cons a t ih =>
    intro x2 r1 r2 h hx1 hx2
    cases x2 with
    | nil =>
      simp only [List.nil_append, List.cons_append, List.cons.injEq] at h
      rcases h with ⟨h1, _⟩
      subst h1
      exact absurd (List.mem_cons_self a t) hx1
    | cons b u =>
      simp only [List.cons_append, List.cons.injEq] at h
      obtain ⟨hab, ht⟩ := h
      have hr := ih u r1 r2 ht (fun hm => hx1 (List.mem_cons_of_mem a hm))
        (fun hm => hx2 (List.mem_cons_of_mem b hm))
      exact ⟨by rw [hab, hr.1], hr.2⟩

/-- A three-component underscore-separated list decomposes uniquely when
the middle and last components are underscore-free (working from the right,
the first component is unconstrained). -/
theorem three_part_inj (a1 b1 c1 a2 b2 c2 : List Char)
    (h : a1 ++ '_' :: (b1 ++ '_' :: c1) = a2 ++ '_' :: (b2 ++ '_' :: c2))
    (hb1 : '_' ∉ b1) (hb2 : '_' ∉ b2) (hc1 : '_' ∉ c1) (hc2 : '_' ∉ c2) :
    a1 = a2 ∧ b1 = b2 ∧ c1 = c2 := by
  have hrev := congrArg List.reverse h
  simp only [List.reverse_append, List.reverse_cons, List.append_assoc,
    List.singleton_append, List.nil_append, List.cons_append] at hrev
  have h1 := append_sep_inj '_' _ _ _ _ hrev (by simpa using hc1)
    (by simpa using hc2)
  have h2 := append_sep_inj '_' _ _ _ _ h1.2 (by simpa using hb1)
    (by simpa using hb2)
  refine ⟨?_, ?_, ?_⟩
  · have := congrArg List.reverse h2.2
    simpa using this
  · have := congrArg List.reverse h2.1
    simpa using this
  · have := congrArg List.reverse h1.1
    simpa using this

theorem hp_is_nest_ordering_values (hd : HpHeader) (o : String) (b : Bool)
    (ho : hd.ordering = some o) (hn : hp_is_nest hd = .ok b) :
    strLower o = "nested" ∨ strLower o = "nest" ∨ strLower o = "ring" := by
  simp only [hp_is_nest, ho] at hn
  split_ifs at hn with h1 h2 h3
  · rcases h2 with h | h
    · exact Or.inl h
    · exact Or.inr (Or.inl h)
  · exact Or.inr (Or.inr h3)

theorem strLower_no_underscore (o w : String) (hw : strLower o = w)
    (hnub : '_' ∉ w.data) : '_' ∉ o.data := by
  intro hmem
  apply hnub
  rw [← hw]
  exact List.mem_map.mpr ⟨'_', hmem, by decide⟩

theorem ordering_no_underscore (hd : HpHeader) (o : String) (b : Bool)
    (ho : hd.ordering = some o) (hn : hp_is_nest hd = .ok b) :
    '_' ∉ o.data := by
  rcases hp_is_nest_ordering_values hd o b ho hn with h | h | h <;>
    exact strLower_no_underscore o _ h (by decide)

theorem frame_name_no_underscore (f : CelFrame) : '_' ∉ f.name.data := by
  cases f <;> decide

theorem frame_name_inj (f1 f2 : CelFrame) (h : f1.name = f2.name) :
    f1 = f2 := by
  cases f1 <;> cases f2 <;> first | rfl | (exfalso; revert h; decide)

/-- C3 counterexample: two maps whose pixelization descriptors are
field-wise equal (NSIDE 64, RING scheme, equatorial frame) but whose raw
`ORDERING` strings differ only in case receive different grouping keys, so
grouping by key is strictly finer than descriptor equality. -/
theorem hpmap_key_case_counterexample :
    hpmap_key ⟨"m1", [], ⟨64, some "RING", some "C"⟩, "a", none⟩ =
      .ok "64_RING_icrs" ∧
    hpmap_key ⟨"m2", [], ⟨64, some "ring", some "C"⟩, "b", none⟩ =
      .ok "64_ring_icrs" ∧
    ("64_RING_icrs" : String) ≠ "64_ring_icrs" ∧
    hp_is_nest ⟨64, some "RING", some "C"⟩ = .ok false ∧
    hp_is_nest ⟨64, some "ring", some "C"⟩ = .ok false ∧
    hp_celestial ⟨64, some "RING", some "C"⟩ =
      hp_celestial ⟨64, some "ring", some "C"⟩ := by
  exact ⟨by decide, by decide, by decide, by decide, by decide, by decide⟩

/-- C3 amended: `hpmap_key` is `"{NSIDE}_{raw ORDERING}_{canonical frame
name}"`, and for maps with recognized ORDERING and COORDSYS two keys are
equal iff NSIDE, the raw ORDERING string (compared verbatim, case
included), and the canonical frame coincide.  Frame synonyms ("G" vs
"Galactic") share a key, identical headers with different identifiers share
a key, distinct NSIDE separates keys — but ORDERING spellings differing
only in case separate descriptor-equal maps. -/
theorem hpmap_key_exact
    (m1 m2 : MapEntry) (o1 o2 : String) (f1 f2 : CelFrame) (b1 b2 : Bool)
    (ho1 : m1.header.ordering = some o1) (ho2 : m2.header.ordering = some o2)
    (hn1 : hp_is_nest m1.header = .ok b1) (hn2 : hp_is_nest m2.header = .ok b2)
    (hf1 : hp_celestial m1.header = .ok f1)
    (hf2 : hp_celestial m2.header = .ok f2) :
    hpmap_key m1 =
      .ok (natRepr m1.header.nside ++ "_" ++ o1 ++ "_" ++ f1.name) ∧
    (hpmap_key m1 = hpmap_key m2 ↔
      (m1.header.nside = m2.header.nside ∧ o1 = o2 ∧ f1 = f2)) := by
  have e1 : hpmap_key m1 =
      .ok (natRepr m1.header.nside ++ "_" ++ o1 ++ "_" ++ f1.name) := by
    simp [hpmap_key, ho1, hf1]
  have e2 : hpmap_key m2 =
      .ok (natRepr m2.header.nside ++ "_" ++ o2 ++ "_" ++ f2.name) := by
    simp [hpmap_key, ho2, hf2]
  refine ⟨e1, ?_, ?_⟩
  · intro hk
    rw [e1, e2] at hk
    have hs := Except.ok.inj hk
    have hdata := congrArg String.data hs
    have hu : ("_" : String).data = ['_'] := rfl
    simp only [String.data_append, hu, List.append_assoc,
      List.singleton_append] at hdata
    have hsplit := three_part_inj _ _ _ _ _ _ hdata
      (ordering_no_underscore _ _ _ ho1 hn1)
      (ordering_no_underscore _ _ _ ho2 hn2)
      (frame_name_no_underscore f1) (frame_name_no_underscore f2)
    refine ⟨natRepr_inj _ _ (String.ext hsplit.1), String.ext hsplit.2.1,
      frame_name_inj _ _ (String.ext hsplit.2.2)⟩
  · rintro ⟨h1, h2, h3⟩
    rw [e1, e2, h1, h2, h3]

/-- Closed witness for the amended C3: frame synonyms "C" and "EQ" share a
key, NSIDE 32 separates, and the raw-ORDERING case difference separates. -/
theorem hpmap_key_exact_witness :
    hpmap_key ⟨"m1", [], ⟨64, some "RING", some "C"⟩, "a", none⟩ =
      .ok (natRepr 64 ++ "_" ++ "RING" ++ "_" ++ CelFrame.icrs.name) ∧
    (hpmap_key ⟨"m1", [], ⟨64, some "RING", some "C"⟩, "a", none⟩ =
      hpmap_key ⟨"m2", [], ⟨64, some "RING", some "EQ"⟩, "b", none⟩) ∧
    (hpmap_key ⟨"m1", [], ⟨64, some "RING", some "C"⟩, "a", none⟩ ≠
      hpmap_key ⟨"m3", [], ⟨32, some "RING", some "C"⟩, "c", none⟩) := by
  have h1 := hpmap_key_exact
    ⟨"m1", [], ⟨64, some "RING", some "C"⟩, "a", none⟩
    ⟨"m2", [], ⟨64, some "RING", some "EQ"⟩, "b", none⟩
    "RING" "RING" .icrs .icrs false false rfl rfl (by decide) (by decide)
    (by decide) (by decide)
  have h2 := hpmap_key_exact
    ⟨"m1", [], ⟨64, some "RING", some "C"⟩, "a", none⟩
    ⟨"m3", [], ⟨32, some "RING", some "C"⟩, "c", none⟩
    "RING" "RING" .icrs .icrs false false rfl rfl (by decide) (by decide)
    (by decide) (by decide)
  refine ⟨h1.1, h1.2.mpr ⟨rfl, rfl, rfl⟩, fun hk => ?_⟩
  have := (h2.2.mp hk).1
  norm_num at this

/-- Fixtures for the `CutSky` theorems: two maps sharing one pixelization
group with legends "a" and "b", a 1×1 all-defined Galactic grid, and a
fresh instance state over that group. -/
def mapA : MapEntry := ⟨"fa", [1], ⟨1, some "RING", some "G"⟩, "a", none⟩

def mapB : MapEntry := ⟨"fb", [2], ⟨1, some "RING", some "G"⟩, "b", none⟩

def bwG : BuildWCS := fun _ _ => ⟨.galactic, fun _ _ => (some 0, some 0)⟩

def state0 : CutSkyState :=
  { npix := 1, pixsize := 1, ctype := "TAN",
    maps := [("1_RING_galactic", [mapA, mapB])], maps_selection := none,
    cuts := none, lonlat := none, coordframe := "galactic" }

/-- C6: on a cache miss, `cut_png` delegates to `cut_fits` without
forwarding `maps_selection`: requesting only legend "a" still projects both
maps and resets the stored selection to `None` (so an identical repeat
request misses the cache again), while `cut_fits` itself honors the same
selection — pinpointing the dropped argument in `cut_png`/`cut_phot`. -/
theorem cut_png_selection_bug :
    ((cut_png a2pZero trSwap bwG state0 (0, 0) "galactic" (some ["a"])).map
      (fun r => (r.1.map Cut.legend, r.2.maps_selection))) =
      .ok (["a", "b"], none) ∧
    ((cut_phot a2pZero trSwap bwG state0 (0, 0) "galactic" (some ["a"])).map
      (fun r => (r.1.map Cut.legend, r.2.maps_selection))) =
      .ok (["a", "b"], none) ∧
    ((cut_fits a2pZero trSwap bwG state0 (0, 0) "galactic" (some ["a"])).map
      (fun r => r.1.map Cut.legend)) = .ok ["a"] := by
  exact ⟨by decide, by decide, by decide⟩

/-- C7 counterexample: constructing a `CutSky` over the empty map list does
not raise the no-input error — initialization succeeds with an empty group
mapping; only an absent (`None`) collection raises. -/
theorem CutSky_init_empty_counterexample :
    CutSky_init (fun _ => ([], ⟨1, some "RING", some "G"⟩)) (some []) 256 1
      "TAN" =
    .ok { npix := 256, pixsize := 1, ctype := "TAN", maps := [],
          maps_selection := none, cuts := none, lonlat := none,
          coordframe := "galactic" } := by
  decide

/-- C7 amended: `CutSky.__init__` (and the `cutsky` convenience function)
raise the no-input error immediately exactly when the map collection is
absent (`None`); an empty collection is accepted by initialization. -/
theorem no_input_only_when_absent
    (readMap : ReadMap) (npix : Nat) (pixsize : ℚ) (ctype : String)
    (a2p : Ang2Pix) (tr : FrameTransform) (bw : BuildWCS)
    (ll : ℚ × ℚ) (coordframe : String) :
    CutSky_init readMap none npix pixsize ctype = .error .noInput ∧
    cutsky a2p tr bw readMap (some ll) none npix pixsize coordframe ctype =
      .error .noInput ∧
    ∃ s, CutSky_init readMap (some []) npix pixsize ctype = .ok s := by
  exact ⟨rfl, rfl, ⟨_, rfl⟩⟩

